import Mathlib

/-!
# Verification of the hatchery scoped-credential broker

Shallow embedding of the credential core of the `levino/hatchery` repository.
The repository carries two parallel implementations of the broker:

* a Go implementation (`internal/creds`: `TokenProvider.GetToken`,
  `SocketManager.CreateSocket` / `RemoveSocket`, `cacheKey`, `repoNames`,
  `createJWT`; `cmd/hatchery-creds/main.go`: `recover`, `parseRepos`), and
* a TypeScript implementation (`src/creds/token.ts`: `TokenProvider.getToken`,
  `createJWT`, `createInstallationToken`, `cacheKey`; `src/creds/server.ts`:
  `SocketManager`; `src/creds-service.ts`: `recover`, `parseRepos`;
  `src/config.ts`: `installationId`).

Definitions prefixed `go` embed the Go code, definitions prefixed `ts` embed
the TypeScript code; unprefixed definitions are shared verbatim between the
two sources.  Network transport, JSON serialization, the RSA signature itself
and filesystem effects are abstracted: the upstream HTTP response is passed in
as an explicit `MintResult` value, and the listener bind is assumed to
succeed (its failure path is not touched by any claim).
-/

namespace Hatchery

/-- `CachedToken` / `cachedToken`: one cache entry, an opaque token string and
its absolute expiry.  Timestamps are integers: the Go code compares
`time.Time` values at second granularity (`5 * time.Minute` = 300 s), the
TypeScript code compares `Date.getTime()` milliseconds (`5 * 60 * 1000` ms);
each embedding uses the unit of its source. -/
structure CachedToken where
  token : String
  expiresAt : Int
  deriving Repr, DecidableEq

/-- First-match association-list lookup, the model of reading a Go
`map[string]V` / a JS `Map` (keys are kept unique by insertion discipline). -/
def lookupKey {β : Type _} (key : String) : List (String × β) → Option β
  | [] => none
  | (k, v) :: rest => if k = key then some v else lookupKey key rest

/-- The token cache of a `TokenProvider`: scope key to cached token. -/
abbrev Cache := List (String × CachedToken)

/-- Model of `tp.cache[key] = v` / `this.cache.set(key, v)`: the entry for
`key` is replaced wholesale. -/
def insertCache (key : String) (v : CachedToken) (c : Cache) : Cache :=
  (key, v) :: c.filter (fun e => ¬ e.1 = key)

/-- `cacheKey(repos)`: both sources copy the repo list, sort it and join it
with commas (`sort.Strings` + `strings.Join` in Go, `[...repos].sort().join(",")`
in TypeScript).  The sorting algorithm is abstracted as a sort with respect to
the lexicographic order on strings. -/
def cacheKey (repos : List String) : String :=
  String.intercalate "," (List.insertionSort (· ≤ ·) repos)

/-- The upstream identity provider's answer to one token-exchange POST
(`POST /app/installations/:id/access_tokens`): HTTP status, raw body, and the
token/expiry fields the success path parses out of the body. -/
structure MintResult where
  status : Nat
  body : String
  token : String
  expiresAt : Int
  deriving Repr, DecidableEq

/-- Outcome of one Go `GetToken` call: the returned value or the returned
error.  `err status body` stands for the error
`fmt.Errorf("GitHub API returned %d: %s", status, body)`. -/
inductive GoReply
  | ok (token : String)
  | err (status : Nat) (body : String)
  deriving Repr, DecidableEq

/-- The mint branch of Go `GetToken` (lines 68–74 of `token.go` together with
`createInstallationToken`): one upstream call is made; on `201 Created` the
parsed token is cached under `key` and returned, on any other status the
error is returned and the cache is left alone.  The third component counts
upstream calls. -/
def goMintStep (key : String) (cache : Cache) (mint : MintResult) :
    GoReply × Cache × Nat :=
  if mint.status = 201 then
    (.ok mint.token, insertCache key ⟨mint.token, mint.expiresAt⟩ cache, 1)
  else
    (.err mint.status mint.body, cache, 1)

/-- Go `TokenProvider.GetToken(repos)`: compute the cache key; if a cached
entry has strictly more than five minutes of validity left
(`time.Until(cached.ExpiresAt) > 5*time.Minute`) return it with no upstream
call, otherwise mint.  The `tp.mu` mutex makes the whole body atomic; the
embedding therefore treats one `GetToken` call as one atomic step. -/
def goGetToken (cache : Cache) (now : Int) (repos : List String)
    (mint : MintResult) : GoReply × Cache × Nat :=
  let key := cacheKey repos
  match lookupKey key cache with
  | some c =>
      if c.expiresAt - now > 5 * 60 then (.ok c.token, cache, 0)
      else goMintStep key cache mint
  | none => goMintStep key cache mint

/-! ## Character-level string operations

`strings.SplitN` / `String.prototype.split` / label trimming are embedded as
structurally recursive functions over the underlying character list, so that
every definition evaluates inside the kernel. -/

/-- Splitting on a single separator character, as `strings.Split` (Go) and
`str.split(sep)` (JS) both behave for one-character separators:
`splitChar sep [] = [[]]`, matching `"".split(sep) = [""]`. -/
def splitChar (sep : Char) : List Char → List (List Char)
  | [] => [[]]
  | c :: cs =>
    if c = sep then [] :: splitChar sep cs
    else
      match splitChar sep cs with
      | [] => [[c]]
      | g :: gs => (c :: g) :: gs

/-- Split at the first occurrence of `sep` only, the behavior of
`strings.SplitN(r, sep, 2)`: `none` when `sep` does not occur. -/
def splitFirst (sep : Char) : List Char → Option (List Char × List Char)
  | [] => none
  | c :: cs =>
    if c = sep then some ([], cs)
    else (splitFirst sep cs).map (fun p => (c :: p.1, p.2))

/-- Go `repoNames` element behavior: `strings.SplitN(r, "/", 2)`; with two
parts the part after the first slash is kept, otherwise `r` is unchanged. -/
def goShortName (r : String) : String :=
  match splitFirst '/' r.data with
  | some p => ⟨p.2⟩
  | none => r

/-- Go `repoNames(repos)`: the repository list sent in the token-exchange
request body. -/
def repoNames (repos : List String) : List String :=
  repos.map goShortName

/-- TypeScript request-body element: `r.split("/")[1]`.  `none` models the JS
`undefined` produced when `r` contains no slash (serialized as JSON `null`
inside the `repositories` array). -/
def tsShortName (r : String) : Option String :=
  ((splitChar '/' r.data)[1]?).map (fun cs => String.mk cs)

/-- TypeScript request body: `repos.map((r) => r.split("/")[1])`. -/
def tsRequestRepos (repos : List String) : List (Option String) :=
  repos.map tsShortName

/-- `repo.split("/")[0]` from `installationId` in `config.ts`: the
organization prefix (the whole string when there is no slash). -/
def orgOf (repo : String) : String :=
  ⟨(splitChar '/' repo.data).headD []⟩

/-- TypeScript `installationId(config, repo)` from `config.ts`: look the
organization up in the configured installation map; `none` models the thrown
`Error` (JS truthiness: a missing key and an empty-string id both throw). -/
def installationId (installations : List (String × String)) (repo : String) :
    Option String :=
  match lookupKey (orgOf repo) installations with
  | none => none
  | some id => if id = "" then none else some id

/-- Outcome of one TypeScript `getToken` call.  `errApi` is the thrown
`Error("GitHub API returned <status>: <body>")`, `errNoInstall` the error
thrown by `installationId`, and `errType` the `TypeError` raised when
`repos[0]` is `undefined` (empty scope list). -/
inductive TsReply
  | ok (token : String)
  | errApi (status : Nat) (body : String)
  | errNoInstall (org : String)
  | errType
  deriving Repr, DecidableEq

/-- The mint branch of TypeScript `getToken` (`installationId` selection, then
`createInstallationToken`).  `fetch` succeeds iff `resp.ok`, i.e. the status
is in 200–299; only then is the body parsed, the cache entry overwritten and
the token returned.  The `Nat` counts upstream calls. -/
def tsMintStep (installations : List (String × String)) (key : String)
    (cache : Cache) (repos : List String) (resp : MintResult) :
    TsReply × Cache × Nat :=
  match repos with
  | [] => (.errType, cache, 0)
  | r :: _ =>
    match installationId installations r with
    | none => (.errNoInstall (orgOf r), cache, 0)
    | some _ =>
      if 200 ≤ resp.status ∧ resp.status ≤ 299 then
        (.ok resp.token, insertCache key ⟨resp.token, resp.expiresAt⟩ cache, 1)
      else
        (.errApi resp.status resp.body, cache, 1)

/-- The installation id `getToken` resolves before minting:
`installationId(this.config, repos[0])` — computed from the first repository
of the scope list only ([] models the `undefined` of `repos[0]` on an empty
list and a thrown lookup error alike). -/
def tsSelectedInstallation (installations : List (String × String)) :
    List String → Option String
  | [] => none
  | r :: _ => installationId installations r

/-- TypeScript `TokenProvider.getToken(repos)` (one call run to completion
with no interleaved competitor; `now` and the upstream response are passed
explicitly).  Cache hit requires
`cached.expiresAt.getTime() - Date.now() > 5 * 60 * 1000`. -/
def tsGetToken (installations : List (String × String)) (cache : Cache)
    (now : Int) (repos : List String) (resp : MintResult) :
    TsReply × Cache × Nat :=
  let key := cacheKey repos
  match lookupKey key cache with
  | some c =>
      if c.expiresAt - now > 5 * 60 * 1000 then (.ok c.token, cache, 0)
      else tsMintStep installations key cache repos resp
  | none => tsMintStep installations key cache repos resp

/-! ## Interleaving model for concurrent TypeScript `getToken` calls

A `getToken` call has exactly one suspension point: the `await` on the
upstream `fetch`.  Everything before it (cache check, `installationId`) runs
synchronously, and everything after it (cache write, return) runs
synchronously.  A call is therefore a two-phase task; a scheduler interleaves
the phases of two calls over the shared cache. -/

/-- Progress of one in-flight `getToken` call. -/
inductive Phase
  | pending
  | awaitingMint
  | done (token : String)
  | failed
  deriving Repr, DecidableEq

/-- The synchronous prefix of the mint branch: select the installation and
issue the upstream `fetch` (counted as the upstream call), then suspend. -/
def tsIssueMint (installations : List (String × String))
    (repos : List String) (c : Cache) (m : Nat) : Cache × Nat × Phase :=
  match repos with
  | [] => (c, m, .failed)
  | r :: _ =>
    match installationId installations r with
    | none => (c, m, .failed)
    | some _ => (c, m + 1, .awaitingMint)

/-- One scheduler step of one task: from `pending`, run the synchronous
cache check and possibly issue the fetch; from `awaitingMint`, resume after
the fetch with response `resp`, write the cache and finish. -/
def tsTaskStep (installations : List (String × String)) (now : Int)
    (repos : List String) (resp : MintResult) :
    Cache → Nat → Phase → Cache × Nat × Phase
  | c, m, .pending =>
    match lookupKey (cacheKey repos) c with
    | some ct =>
        if ct.expiresAt - now > 5 * 60 * 1000 then (c, m, .done ct.token)
        else tsIssueMint installations repos c m
    | none => tsIssueMint installations repos c m
  | c, m, .awaitingMint =>
      if 200 ≤ resp.status ∧ resp.status ≤ 299 then
        (insertCache (cacheKey repos) ⟨resp.token, resp.expiresAt⟩ c,
          m, .done resp.token)
      else (c, m, .failed)
  | c, m, ph => (c, m, ph)

/-- Shared state of two concurrent `getToken` calls for the same scope:
the provider's cache, the total number of upstream calls issued, and each
call's progress. -/
structure TsSys where
  cache : Cache
  mints : Nat
  t1 : Phase
  t2 : Phase
  deriving Repr, DecidableEq

/-- One scheduler step: `true` advances the first call, `false` the second. -/
def sysStep (installations : List (String × String)) (now : Int)
    (repos : List String) (resp : MintResult) (sys : TsSys) (pick : Bool) :
    TsSys :=
  if pick then
    let s := tsTaskStep installations now repos resp sys.cache sys.mints sys.t1
    { cache := s.1, mints := s.2.1, t1 := s.2.2, t2 := sys.t2 }
  else
    let s := tsTaskStep installations now repos resp sys.cache sys.mints sys.t2
    { cache := s.1, mints := s.2.1, t1 := sys.t1, t2 := s.2.2 }

/-- Run a schedule (a list of picks) over the two-task system. -/
def runTs (installations : List (String × String)) (now : Int)
    (repos : List String) (resp : MintResult) (sched : List Bool)
    (sys : TsSys) : TsSys :=
  sched.foldl (sysStep installations now repos resp) sys

/-! ## Signed assertion (JWT) claims -/

/-- The registered claims both `createJWT` implementations put into the
assertion. -/
structure JwtClaims where
  iat : Int
  exp : Int
  iss : String
  deriving Repr, DecidableEq

/-- Go `createJWT`: issued-at `now - 60s`, expiry `now + 10min`, issuer the
configured app id, signed with `jwt.SigningMethodRS256` (the signature bytes
themselves are abstracted; the second component is the algorithm name). -/
def goCreateJWT (now : Int) (appID : String) : JwtClaims × String :=
  (⟨now - 60, now + 10 * 60, appID⟩, "RS256")

/-- TypeScript `createJWT`: `now = Math.floor(Date.now() / 1000)`, then
`iat = now - 60`, `exp = now + 10 * 60`, `iss = config.githubClientId`,
`algorithm: "RS256"`. -/
def tsCreateJWT (nowMs : Int) (clientId : String) : JwtClaims × String :=
  let now := Int.fdiv nowMs 1000
  (⟨now - 60, now + 10 * 60, clientId⟩, "RS256")

/-! ## Endpoint registry (SocketManager)

Both `SocketManager`s hold a name-keyed map of live sockets and are embedded
as an association list with unique keys.  Directory creation, stale-socket
unlink and the listener bind are filesystem effects outside the claims; the
bind is modeled as succeeding. -/

/-- The set of live tenant endpoints: drone name to the repo scope captured
at creation. -/
abbrev Registry := List (String × List String)

/-- `CreateSocket(droneName, repos)` / `createSocket`: a no-op returning
success when an entry already exists, otherwise register the new socket with
the given scope. -/
def createSocket (reg : Registry) (name : String) (repos : List String) :
    Registry :=
  match lookupKey name reg with
  | some _ => reg
  | none => (name, repos) :: reg

/-- Model of `delete(sm.sockets, name)` / `this.sockets.delete(name)`: drop
the entry for `name`. -/
def eraseKey (name : String) : Registry → Registry
  | [] => []
  | e :: rest => if e.1 = name then eraseKey name rest else e :: eraseKey name rest

/-- `RemoveSocket(droneName)` / `removeSocket`: a no-op when no entry exists,
otherwise close and drop the entry. -/
def removeSocket (reg : Registry) (name : String) : Registry :=
  match lookupKey name reg with
  | some _ => eraseKey name reg
  | none => reg

/-- Number of live endpoints registered under `name`. -/
def countName (name : String) : Registry → Nat
  | [] => 0
  | e :: rest =>
    if e.1 = name then countName name rest + 1 else countName name rest

/-- The `/token` handler bound at socket creation: it calls `GetToken` with
the repo list captured when the socket was created (`entry.repos`), never
with anything request-supplied; `none` when no endpoint serves `name`. -/
def handleTokenRequest (reg : Registry) (name : String) (cache : Cache)
    (now : Int) (mint : MintResult) : Option (GoReply × Cache × Nat) :=
  (lookupKey name reg).map (fun repos => goGetToken cache now repos mint)

/-- Registry operations issued by the lifecycle reconciler. -/
inductive RegOp
  | create (name : String) (repos : List String)
  | remove (name : String)
  deriving Repr, DecidableEq

/-- Apply one reconciler operation. -/
def applyOp (reg : Registry) : RegOp → Registry
  | .create n rs => createSocket reg n rs
  | .remove n => removeSocket reg n

/-- Apply a sequence of reconciler operations. -/
def applyOps (reg : Registry) (ops : List RegOp) : Registry :=
  ops.foldl applyOp reg

/-! ## Startup recovery pass -/

/-- One container as reported by the orchestrator: the drone-name label, the
repository label and the container state.  A missing label reads as the empty
string in both sources. -/
structure Drone where
  name : String
  repo : String
  state : String
  deriving Repr, DecidableEq

/-- ASCII whitespace, the common core of `strings.TrimSpace` (Go) and
`String.prototype.trim` (JS); the claims only exercise ASCII labels. -/
def isSpaceChar (c : Char) : Bool :=
  c == ' ' || c == '\t' || c == '\n' || c == '\r'

/-- Trim leading and trailing whitespace from a character list. -/
def trimChars (cs : List Char) : List Char :=
  ((cs.dropWhile isSpaceChar).reverse.dropWhile isSpaceChar).reverse

/-- Whitespace-trim a string. -/
def trimStr (s : String) : String :=
  ⟨trimChars s.data⟩

/-- Go `parseRepos(repo)` from `cmd/hatchery-creds/main.go`: `nil` for the
empty label, otherwise split on commas and `TrimSpace` each entry. -/
def goParseRepos (repo : String) : List String :=
  if repo = "" then []
  else (splitChar ',' repo.data).map (fun cs => String.mk (trimChars cs))

/-- TypeScript `parseRepos(repo)` from `creds-service.ts`: split on commas,
trim each entry, then `filter(Boolean)` drops empty entries. -/
def tsParseRepos (repo : String) : List String :=
  ((splitChar ',' repo.data).map (fun cs => String.mk (trimChars cs))).filter
    (fun r => ¬ r = "")

/-- The scope computation exactly as the specification words it, for
comparison with the code: "the scope parsed from that container's repository
label(s) (a comma-separated list, trimmed of surrounding whitespace per
entry)" — split on commas and trim each entry, nothing else. -/
def specRecoverScope (repo : String) : List String :=
  (splitChar ',' repo.data).map (fun cs => String.mk (trimChars cs))

/-- One iteration of the Go `recover` loop: every drone whose state is
`"running"` gets a socket scoped to `parseRepos` of its repo label. -/
def goRecoverStep (reg : Registry) (d : Drone) : Registry :=
  if d.state = "running" then createSocket reg d.name (goParseRepos d.repo)
  else reg

/-- Go `recover` from `cmd/hatchery-creds/main.go`, starting from no live
sockets. -/
def goRecover (drones : List Drone) : Registry :=
  drones.foldl goRecoverStep []

/-- One iteration of the TypeScript `recover` loop: the guard is
`d.state === "running" && d.repo` (JS truthiness: the repo label must be
nonempty). -/
def tsRecoverStep (reg : Registry) (d : Drone) : Registry :=
  if d.state = "running" ∧ ¬ d.repo = "" then
    createSocket reg d.name (tsParseRepos d.repo)
  else reg

/-- TypeScript `recover` from `creds-service.ts`, starting from no live
sockets. -/
def tsRecover (drones : List Drone) : Registry :=
  drones.foldl tsRecoverStep []

/-- The scope the Go recovery pass ends up serving for `name`: that of the
first running drone called `name`, since later `CreateSocket` calls for an
existing name are no-ops. -/
def goFirstScope (name : String) : List Drone → Option (List String)
  | [] => none
  | d :: ds =>
    if d.state = "running" ∧ d.name = name then some (goParseRepos d.repo)
    else goFirstScope name ds

/-- The scope the TypeScript recovery pass ends up serving for `name`. -/
def tsFirstScope (name : String) : List Drone → Option (List String)
  | [] => none
  | d :: ds =>
    if d.state = "running" ∧ ¬ d.repo = "" ∧ d.name = name then
      some (tsParseRepos d.repo)
    else tsFirstScope name ds

/-! ## Helper lemmas -/

theorem lookupKey_insertCache_self (key : String) (v : CachedToken)
    (c : Cache) : lookupKey key (insertCache key v c) = some v := by
  simp [insertCache, lookupKey]

theorem lookupKey_createSocket_preserved {reg : Registry} {n : String}
    {S : List String} (m : String) (rs : List String)
    (h : lookupKey n reg = some S) :
    lookupKey n (createSocket reg m rs) = some S := by
  unfold createSocket
  cases hm : lookupKey m reg with
  | some _ => exact h
  | none =>
    by_cases hmn : m = n
    · subst hmn
      rw [h] at hm
      exact absurd hm (by simp)
    · simpa [lookupKey, hmn] using h

theorem lookupKey_eraseKey_ne {n m : String} (h : ¬ m = n)
    (reg : Registry) : lookupKey n (eraseKey m reg) = lookupKey n reg := by
  induction reg with
  | nil => rfl
  | cons e rest ih =>
    by_cases he : e.1 = m
    · have hne : ¬ e.1 = n := fun hc => h (he.symm.trans hc)
      simp [eraseKey, he, lookupKey, hne, ih, h]
    · simp [eraseKey, he, lookupKey, ih]

theorem lookupKey_removeSocket_ne {reg : Registry} {n m : String}
    (h : ¬ m = n) :
    lookupKey n (removeSocket reg m) = lookupKey n reg := by
  unfold removeSocket
  cases hm : lookupKey m reg with
  | some _ => exact lookupKey_eraseKey_ne h reg
  | none => rfl

theorem countName_zero_of_lookup_none {reg : Registry} {n : String}
    (h : lookupKey n reg = none) : countName n reg = 0 := by
  induction reg with
  | nil => rfl
  | cons e rest ih =>
    by_cases he : e.1 = n
    · simp [lookupKey, he] at h
    · simp [lookupKey, he] at h
      simp [countName, he]
      exact ih h

theorem countName_pos_of_lookup_some {reg : Registry} {n : String}
    {S : List String} (h : lookupKey n reg = some S) :
    1 ≤ countName n reg := by
  induction reg with
  | nil => simp [lookupKey] at h
  | cons e rest ih =>
    by_cases he : e.1 = n
    · simp [countName, he]
    · simp [lookupKey, he] at h
      simpa [countName, he] using ih h

/-! ## Claims -/

/-- **C1.** For every tenant endpoint, the scope it serves tokens for is
exactly the one passed at its creation and never changes for the endpoint's
lifetime: as long as no `remove` for the tenant occurs, any sequence of
further registry operations (including repeated `createSocket` calls for the
same name with arbitrary scopes) leaves the registered scope untouched, and
every `/token` request handled for that tenant calls `GetToken` with the
creation-time scope `S`. -/
theorem C1_endpoint_scope_immutable (reg : Registry) (n : String)
    (S : List String) (ops : List RegOp)
    (hS : lookupKey n reg = some S)
    (hops : ∀ op ∈ ops, op ≠ RegOp.remove n) :
    lookupKey n (applyOps reg ops) = some S ∧
    ∀ (cache : Cache) (now : Int) (mint : MintResult),
      handleTokenRequest (applyOps reg ops) n cache now mint =
        some (goGetToken cache now S mint) := by
  have key : lookupKey n (applyOps reg ops) = some S := by
    induction ops generalizing reg with
    | nil => exact hS
    | cons op rest ih =>
      have hstep : lookupKey n (applyOp reg op) = some S := by
        cases op with
        | create m rs => exact lookupKey_createSocket_preserved m rs hS
        | remove m =>
          have hmn : ¬ m = n := by
            intro hmn
            exact (hops _ (List.mem_cons_self _ _)) (by rw [hmn])
          show lookupKey n (removeSocket reg m) = some S
          rw [lookupKey_removeSocket_ne hmn]
          exact hS
      exact ih (applyOp reg op) hstep
        (fun op hop => hops op (List.mem_cons_of_mem _ hop))
  refine ⟨key, fun cache now mint => ?_⟩
  simp [handleTokenRequest, key]

/-- Witness for C1 at a concrete trace: the endpoint for `alpha`, created
with scope `["org/a"]`, still serves exactly that scope after a duplicate
create with a different scope, a create and a remove of another tenant. -/
theorem C1_witness :
    lookupKey "alpha"
        (applyOps [("alpha", ["org/a"])]
          [.create "alpha" ["org/b"], .create "beta" ["org/c"],
            .remove "beta"]) = some ["org/a"] ∧
      handleTokenRequest
        (applyOps [("alpha", ["org/a"])]
          [.create "alpha" ["org/b"], .create "beta" ["org/c"],
            .remove "beta"]) "alpha" [] 0 ⟨201, "", "T", 3600⟩ =
        some (goGetToken [] 0 ["org/a"] ⟨201, "", "T", 3600⟩) := by
  have h := C1_endpoint_scope_immutable [("alpha", ["org/a"])] "alpha"
    ["org/a"]
    [.create "alpha" ["org/b"], .create "beta" ["org/c"], .remove "beta"]
    (by simp [lookupKey]) (by decide)
  exact ⟨h.1, h.2 [] 0 ⟨201, "", "T", 3600⟩⟩

/-- **C5.** Endpoint registry operations are idempotent: a second
`createSocket` for the same tenant name (with any scope) is a no-op that
leaves the registry unchanged, after which exactly one live endpoint exists
for that name, and `removeSocket` for a tenant with no live endpoint leaves
the registry unchanged. -/
theorem C5_registry_idempotent (reg : Registry) (n : String)
    (r r' : List String) (hcount : countName n reg ≤ 1) :
    createSocket (createSocket reg n r) n r' = createSocket reg n r ∧
    countName n (createSocket (createSocket reg n r) n r') = 1 ∧
    (lookupKey n reg = none → removeSocket reg n = reg) := by
  refine ⟨?_, ?_, fun h => by simp [removeSocket, h]⟩
  · cases h : lookupKey n reg with
    | some S =>
      have h1 : createSocket reg n r = reg := by simp [createSocket, h]
      have h2 : createSocket reg n r' = reg := by simp [createSocket, h]
      rw [h1, h2]
    | none =>
      have h1 : createSocket reg n r = (n, r) :: reg := by
        simp [createSocket, h]
      have h2 : createSocket ((n, r) :: reg) n r' = (n, r) :: reg := by
        simp [createSocket, lookupKey]
      rw [h1, h2]
  · cases h : lookupKey n reg with
    | some S =>
      have hc : countName n reg = 1 :=
        le_antisymm hcount (countName_pos_of_lookup_some h)
      have h1 : createSocket reg n r = reg := by simp [createSocket, h]
      have h2 : createSocket reg n r' = reg := by simp [createSocket, h]
      rw [h1, h2, hc]
    | none =>
      have h1 : createSocket reg n r = (n, r) :: reg := by
        simp [createSocket, h]
      have h2 : createSocket ((n, r) :: reg) n r' = (n, r) :: reg := by
        simp [createSocket, lookupKey]
      rw [h1, h2]
      simp [countName, countName_zero_of_lookup_none h]

/-- Witness for C5 at a concrete registry: with only `beta` registered,
creating `alpha` twice yields one `alpha` endpoint and the duplicate create
changes nothing; removing the absent `gamma` changes nothing. -/
theorem C5_witness :
    createSocket (createSocket [("beta", ["x"])] "alpha" ["org/a"]) "alpha"
        ["org/b"] = createSocket [("beta", ["x"])] "alpha" ["org/a"] ∧
      countName "alpha"
        (createSocket (createSocket [("beta", ["x"])] "alpha" ["org/a"])
          "alpha" ["org/b"]) = 1 ∧
      removeSocket [("beta", ["x"])] "gamma" = [("beta", ["x"])] := by
  have h := C5_registry_idempotent [("beta", ["x"])] "alpha" ["org/a"]
    ["org/b"] (by decide)
  have h5 := C5_registry_idempotent [("beta", ["x"])] "gamma" ["y"] ["y"]
    (by decide)
  exact ⟨h.1, h.2.1, h5.2.2 (by simp [lookupKey])⟩

/-- **C4.** The cache key is invariant under permutation of the repository
list: `cacheKey(S1) = cacheKey(S2)` whenever `S1` and `S2` contain the same
repositories in a different order. -/
theorem C4_cacheKey_perm_invariant (s1 s2 : List String) (h : s1.Perm s2) :
    cacheKey s1 = cacheKey s2 := by
  unfold cacheKey
  congr 1
  exact List.eq_of_perm_of_sorted
    ((List.perm_insertionSort _ s1).trans
      (h.trans (List.perm_insertionSort _ s2).symm))
    (List.sorted_insertionSort _ s1) (List.sorted_insertionSort _ s2)

/-- Witness for C4: the two orderings of `{org/a, org/b}` produce the same
cache key. -/
theorem C4_witness :
    cacheKey ["org/b", "org/a"] = cacheKey ["org/a", "org/b"] :=
  C4_cacheKey_perm_invariant _ _ (List.Perm.swap "org/a" "org/b" [])

theorem splitFirst_of_not_mem {sep : Char} {a : List Char} (h : sep ∉ a) :
    splitFirst sep a = none := by
  induction a with
  | nil => rfl
  | cons c cs ih =>
    simp only [List.mem_cons, not_or] at h
    obtain ⟨h1, h2⟩ := h
    simp [splitFirst, Ne.symm h1, ih h2]

theorem splitFirst_append {sep : Char} {a : List Char} (h : sep ∉ a)
    (b : List Char) : splitFirst sep (a ++ sep :: b) = some (a, b) := by
  induction a with
  | nil => simp [splitFirst]
  | cons c cs ih =>
    simp only [List.mem_cons, not_or] at h
    obtain ⟨h1, h2⟩ := h
    simp [splitFirst, Ne.symm h1, ih h2]

theorem splitChar_of_not_mem {sep : Char} {a : List Char} (h : sep ∉ a) :
    splitChar sep a = [a] := by
  induction a with
  | nil => rfl
  | cons c cs ih =>
    simp only [List.mem_cons, not_or] at h
    obtain ⟨h1, h2⟩ := h
    simp [splitChar, Ne.symm h1, ih h2]

theorem splitChar_append {sep : Char} {a : List Char} (h : sep ∉ a)
    (b : List Char) :
    splitChar sep (a ++ sep :: b) = a :: splitChar sep b := by
  induction a with
  | nil => simp [splitChar]
  | cons c cs ih =>
    simp only [List.mem_cons, not_or] at h
    obtain ⟨h1, h2⟩ := h
    simp [splitChar, Ne.symm h1, ih h2]

/-- **C7 (counterexample).** The claim "an identifier that already has no
organization prefix is sent unchanged" is false of the TypeScript
implementation: a scope containing the prefix-free identifier `"repo"` puts
`undefined` (here `none`), not `"repo"`, into the request body. -/
theorem C7_counterexample :
    tsRequestRepos ["repo"] = [none] ∧
    ¬ tsRequestRepos ["repo"] = [some "repo"] := by
  exact ⟨rfl, by decide⟩

/-- **C7 (amended).** The Go implementation sends each `org/repo` identifier
as its short name `repo` and sends a prefix-free identifier unchanged; the
TypeScript implementation sends the segment after the first slash, and sends
`undefined` (not the identifier itself) when there is no slash. -/
theorem C7_short_names (org repo r : String)
    (h1 : '/' ∉ org.data) (h2 : '/' ∉ r.data) :
    goShortName (org ++ "/" ++ repo) = repo ∧
    goShortName r = r ∧
    repoNames [org ++ "/" ++ repo, r] = [repo, r] ∧
    ('/' ∉ repo.data → tsShortName (org ++ "/" ++ repo) = some repo) ∧
    tsShortName r = none := by
  have hdata : (org ++ "/" ++ repo).data = org.data ++ '/' :: repo.data := by
    simp [String.data_append]
  have e1 : goShortName (org ++ "/" ++ repo) = repo := by
    unfold goShortName
    rw [hdata, splitFirst_append h1]
  have e2 : goShortName r = r := by
    unfold goShortName
    rw [splitFirst_of_not_mem h2]
  refine ⟨e1, e2, by simp [repoNames, e1, e2], fun h3 => ?_, ?_⟩
  · unfold tsShortName
    rw [hdata, splitChar_append h1, splitChar_of_not_mem h3]
    rfl
  · unfold tsShortName
    rw [splitChar_of_not_mem h2]
    rfl

/-- Witness for the amended C7 at concrete identifiers: `"org/repo"` is sent
as `"repo"` by both implementations, while the prefix-free `"plain"` is sent
unchanged by Go and as `undefined` by TypeScript. -/
theorem C7_witness :
    goShortName ("org" ++ "/" ++ "repo") = "repo" ∧
    goShortName "plain" = "plain" ∧
    repoNames ["org" ++ "/" ++ "repo", "plain"] = ["repo", "plain"] ∧
    tsShortName ("org" ++ "/" ++ "repo") = some "repo" ∧
    tsShortName "plain" = none := by
  have h := C7_short_names "org" "repo" "plain" (by decide) (by decide)
  exact ⟨h.1, h.2.1, h.2.2.1, h.2.2.2.1 (by decide), h.2.2.2.2⟩

/-- **C8.** Every signed assertion has issued-at `now - 60` seconds, expiry
`now + 10` minutes, issuer the configured identity (Go: app id; TypeScript:
client id), and is signed with RS256 — in both implementations. -/
theorem C8_jwt_claims (now nowMs : Int) (appID clientId : String) :
    (goCreateJWT now appID).1.iat = now - 60 ∧
    (goCreateJWT now appID).1.exp = now + 10 * 60 ∧
    (goCreateJWT now appID).1.iss = appID ∧
    (goCreateJWT now appID).2 = "RS256" ∧
    (tsCreateJWT nowMs clientId).1.iat = Int.fdiv nowMs 1000 - 60 ∧
    (tsCreateJWT nowMs clientId).1.exp = Int.fdiv nowMs 1000 + 10 * 60 ∧
    (tsCreateJWT nowMs clientId).1.iss = clientId ∧
    (tsCreateJWT nowMs clientId).2 = "RS256" :=
  ⟨rfl, rfl, rfl, rfl, rfl, rfl, rfl, rfl⟩

/-- **C2.** `getToken` returns the cached token with no upstream call if
and only if the cached entry under the scope key exists and has strictly
more than 5 minutes of validity left (`now < expires_at - 5min`); otherwise
it performs exactly one upstream mint before returning and, on success,
overwrites the cache entry for that key wholesale with the new token and
expiry.  Proved for the Go implementation in full, and for the TypeScript
implementation on its fresh-hit path and on its mint path (whose upstream
call is reached once the installation lookup of C10 succeeds). -/
theorem C2_cache_policy (cache : Cache) (now : Int) (repos : List String)
    (mint : MintResult) (inst : List (String × String)) (r : String)
    (rest : List String) (id : String) :
    ((goGetToken cache now repos mint).2.2 = 0 ↔
      ∃ c, lookupKey (cacheKey repos) cache = some c ∧
        now < c.expiresAt - 5 * 60) ∧
    ((∃ c, lookupKey (cacheKey repos) cache = some c ∧
        now < c.expiresAt - 5 * 60) →
      ∃ c, lookupKey (cacheKey repos) cache = some c ∧
        goGetToken cache now repos mint = (.ok c.token, cache, 0)) ∧
    ((¬ ∃ c, lookupKey (cacheKey repos) cache = some c ∧
        now < c.expiresAt - 5 * 60) →
      (goGetToken cache now repos mint).2.2 = 1 ∧
      (mint.status = 201 →
        goGetToken cache now repos mint =
          (.ok mint.token,
            insertCache (cacheKey repos) ⟨mint.token, mint.expiresAt⟩ cache,
            1))) ∧
    ((∃ c, lookupKey (cacheKey (r :: rest)) cache = some c ∧
        now < c.expiresAt - 5 * 60 * 1000) →
      ∃ c, lookupKey (cacheKey (r :: rest)) cache = some c ∧
        tsGetToken inst cache now (r :: rest) mint = (.ok c.token, cache, 0)) ∧
    ((¬ ∃ c, lookupKey (cacheKey (r :: rest)) cache = some c ∧
        now < c.expiresAt - 5 * 60 * 1000) →
      installationId inst r = some id →
      (tsGetToken inst cache now (r :: rest) mint).2.2 = 1 ∧
      (200 ≤ mint.status ∧ mint.status ≤ 299 →
        tsGetToken inst cache now (r :: rest) mint =
          (.ok mint.token,
            insertCache (cacheKey (r :: rest))
              ⟨mint.token, mint.expiresAt⟩ cache, 1))) := by
  have hts : (∃ c, lookupKey (cacheKey (r :: rest)) cache = some c ∧
        now < c.expiresAt - 5 * 60 * 1000) →
      ∃ c, lookupKey (cacheKey (r :: rest)) cache = some c ∧
        tsGetToken inst cache now (r :: rest) mint =
          (.ok c.token, cache, 0) := by
    rintro ⟨c, hc, hfresh⟩
    refine ⟨c, hc, ?_⟩
    show (match lookupKey (cacheKey (r :: rest)) cache with
      | some d =>
          if d.expiresAt - now > 5 * 60 * 1000 then
            (TsReply.ok d.token, cache, 0)
          else tsMintStep inst (cacheKey (r :: rest)) cache (r :: rest) mint
      | none =>
          tsMintStep inst (cacheKey (r :: rest)) cache (r :: rest) mint) =
        (.ok c.token, cache, 0)
    rw [hc]
    exact if_pos (by omega : c.expiresAt - now > 5 * 60 * 1000)
  have hts2 : (¬ ∃ c, lookupKey (cacheKey (r :: rest)) cache = some c ∧
        now < c.expiresAt - 5 * 60 * 1000) →
      installationId inst r = some id →
      (tsGetToken inst cache now (r :: rest) mint).2.2 = 1 ∧
      (200 ≤ mint.status ∧ mint.status ≤ 299 →
        tsGetToken inst cache now (r :: rest) mint =
          (.ok mint.token,
            insertCache (cacheKey (r :: rest))
              ⟨mint.token, mint.expiresAt⟩ cache, 1)) := by
    intro hex2 hinst
    have hrun : tsGetToken inst cache now (r :: rest) mint =
        tsMintStep inst (cacheKey (r :: rest)) cache (r :: rest) mint := by
      show (match lookupKey (cacheKey (r :: rest)) cache with
        | some d =>
            if d.expiresAt - now > 5 * 60 * 1000 then
              (TsReply.ok d.token, cache, 0)
            else tsMintStep inst (cacheKey (r :: rest)) cache (r :: rest) mint
        | none =>
            tsMintStep inst (cacheKey (r :: rest)) cache (r :: rest) mint) =
          tsMintStep inst (cacheKey (r :: rest)) cache (r :: rest) mint
      cases hl : lookupKey (cacheKey (r :: rest)) cache with
      | none => rfl
      | some d => exact if_neg (fun hgt => hex2 ⟨d, hl, by omega⟩)
    have hmint : tsMintStep inst (cacheKey (r :: rest)) cache (r :: rest)
        mint =
        if 200 ≤ mint.status ∧ mint.status ≤ 299 then
          (TsReply.ok mint.token,
            insertCache (cacheKey (r :: rest))
              ⟨mint.token, mint.expiresAt⟩ cache, 1)
        else (TsReply.errApi mint.status mint.body, cache, 1) := by
      show (match installationId inst r with
        | none => (TsReply.errNoInstall (orgOf r), cache, 0)
        | some _ =>
          if 200 ≤ mint.status ∧ mint.status ≤ 299 then
            (TsReply.ok mint.token,
              insertCache (cacheKey (r :: rest))
                ⟨mint.token, mint.expiresAt⟩ cache, 1)
          else (TsReply.errApi mint.status mint.body, cache, 1)) = _
      rw [hinst]
    rw [hrun, hmint]
    constructor
    · by_cases hs : 200 ≤ mint.status ∧ mint.status ≤ 299
      · rw [if_pos hs]
      · rw [if_neg hs]
    · intro hs
      rw [if_pos hs]
  by_cases hex : ∃ c, lookupKey (cacheKey repos) cache = some c ∧
      now < c.expiresAt - 5 * 60
  · obtain ⟨c, hc, hfresh⟩ := hex
    have hcond : c.expiresAt - now > 5 * 60 := by omega
    have hrun : goGetToken cache now repos mint = (.ok c.token, cache, 0) := by
      show (match lookupKey (cacheKey repos) cache with
        | some d =>
            if d.expiresAt - now > 5 * 60 then (GoReply.ok d.token, cache, 0)
            else goMintStep (cacheKey repos) cache mint
        | none => goMintStep (cacheKey repos) cache mint) =
          (.ok c.token, cache, 0)
      rw [hc]
      exact if_pos hcond
    refine ⟨?_, fun _ => ⟨c, hc, hrun⟩,
      fun hn => absurd ⟨c, hc, hfresh⟩ hn, hts, hts2⟩
    rw [hrun]
    exact iff_of_true rfl ⟨c, hc, hfresh⟩
  · have hrun : goGetToken cache now repos mint =
        goMintStep (cacheKey repos) cache mint := by
      show (match lookupKey (cacheKey repos) cache with
        | some d =>
            if d.expiresAt - now > 5 * 60 then (GoReply.ok d.token, cache, 0)
            else goMintStep (cacheKey repos) cache mint
        | none => goMintStep (cacheKey repos) cache mint) =
          goMintStep (cacheKey repos) cache mint
      cases hl : lookupKey (cacheKey repos) cache with
      | none => rfl
      | some d => exact if_neg (fun hgt => hex ⟨d, hl, by omega⟩)
    have hcount : (goMintStep (cacheKey repos) cache mint).2.2 = 1 := by
      unfold goMintStep
      by_cases hs : mint.status = 201
      · rw [if_pos hs]
      · rw [if_neg hs]
    refine ⟨?_, fun hx => absurd hx hex, fun _ => ⟨?_, fun hs => ?_⟩,
      hts, hts2⟩
    · rw [hrun]
      exact iff_of_false (by rw [hcount]; exact one_ne_zero) hex
    · rw [hrun, hcount]
    · rw [hrun]
      unfold goMintStep
      rw [if_pos hs]

/-- Witness for C2: a fresh cache yields one mint whose result is cached
wholesale, and a cache entry with 55 minutes of validity left at `now = 0`
is served with zero upstream calls. -/
theorem C2_witness :
    (goGetToken [] 0 ["org/r"] ⟨201, "", "T", 3600⟩).2.2 = 1 ∧
    goGetToken [] 0 ["org/r"] ⟨201, "", "T", 3600⟩ =
      (.ok "T", insertCache (cacheKey ["org/r"]) ⟨"T", 3600⟩ [], 1) ∧
    (goGetToken [(cacheKey ["org/r"], ⟨"tok", 3300⟩)] 0 ["org/r"]
        ⟨201, "", "T", 3600⟩).2.2 = 0 ∧
    (tsGetToken [("org", "i1")] [] 0 ["org/r"] ⟨201, "", "T", 3600⟩).2.2 =
      1 := by
  have h1 := (C2_cache_policy [] 0 ["org/r"] ⟨201, "", "T", 3600⟩
    [("org", "i1")] "org/r" [] "i1").2.2.1
    (by rintro ⟨c, hc, _⟩; simp [lookupKey] at hc)
  have h2 := (C2_cache_policy [(cacheKey ["org/r"], ⟨"tok", 3300⟩)] 0
    ["org/r"] ⟨201, "", "T", 3600⟩ [("org", "i1")] "org/r" [] "i1").1.mpr
    ⟨⟨"tok", 3300⟩, by simp [lookupKey], by decide⟩
  have h3 := (C2_cache_policy [] 0 ["org/r"] ⟨201, "", "T", 3600⟩
    [("org", "i1")] "org/r" [] "i1").2.2.2.2
    (by rintro ⟨c, hc, _⟩; simp [lookupKey] at hc) rfl
  exact ⟨h1.1, h1.2 rfl, h2, h3.1⟩

/-- **C3 (counterexample).** The claim says any upstream status other than
201 Created makes `getToken` fail with the cache unchanged.  The TypeScript
implementation checks `resp.ok` (any 2xx), so an upstream status of 200 —
which is not 201 — succeeds, returns the parsed token, performs a mint and
modifies the cache. -/
theorem C3_counterexample :
    (tsGetToken [("org", "i1")] [] 0 ["org/repo"]
        ⟨200, "body", "T", 1000000⟩).1 = TsReply.ok "T" ∧
    (tsGetToken [("org", "i1")] [] 0 ["org/repo"]
        ⟨200, "body", "T", 1000000⟩).2.2 = 1 ∧
    ¬ (tsGetToken [("org", "i1")] [] 0 ["org/repo"]
        ⟨200, "body", "T", 1000000⟩).2.1 = [] := by
  exact ⟨rfl, rfl, by decide⟩

/-- **C3 (amended).** On a cache miss (or stale entry), an upstream failure
leaves the cache exactly as it was and produces an error carrying the
upstream HTTP status and response body — where "failure" is any status other
than 201 for the Go implementation, and any status outside 200–299 for the
TypeScript implementation (which therefore treats 200 as success). -/
theorem C3_failure_no_cache (cache : Cache) (now : Int)
    (repos : List String) (mint : MintResult)
    (inst : List (String × String)) (r : String) (rest : List String)
    (id : String) :
    ((¬ ∃ c, lookupKey (cacheKey repos) cache = some c ∧
        now < c.expiresAt - 5 * 60) →
      ¬ mint.status = 201 →
      goGetToken cache now repos mint =
        (.err mint.status mint.body, cache, 1)) ∧
    ((¬ ∃ c, lookupKey (cacheKey (r :: rest)) cache = some c ∧
        now < c.expiresAt - 5 * 60 * 1000) →
      installationId inst r = some id →
      ¬ (200 ≤ mint.status ∧ mint.status ≤ 299) →
      tsGetToken inst cache now (r :: rest) mint =
        (.errApi mint.status mint.body, cache, 1)) := by
  constructor
  · intro hex hs
    have hrun : goGetToken cache now repos mint =
        goMintStep (cacheKey repos) cache mint := by
      show (match lookupKey (cacheKey repos) cache with
        | some d =>
            if d.expiresAt - now > 5 * 60 then (GoReply.ok d.token, cache, 0)
            else goMintStep (cacheKey repos) cache mint
        | none => goMintStep (cacheKey repos) cache mint) =
          goMintStep (cacheKey repos) cache mint
      cases hl : lookupKey (cacheKey repos) cache with
      | none => rfl
      | some d => exact if_neg (fun hgt => hex ⟨d, hl, by omega⟩)
    rw [hrun]
    unfold goMintStep
    rw [if_neg hs]
  · intro hex hinst hbad
    have hrun : tsGetToken inst cache now (r :: rest) mint =
        tsMintStep inst (cacheKey (r :: rest)) cache (r :: rest) mint := by
      show (match lookupKey (cacheKey (r :: rest)) cache with
        | some d =>
            if d.expiresAt - now > 5 * 60 * 1000 then
              (TsReply.ok d.token, cache, 0)
            else tsMintStep inst (cacheKey (r :: rest)) cache (r :: rest) mint
        | none =>
            tsMintStep inst (cacheKey (r :: rest)) cache (r :: rest) mint) =
          tsMintStep inst (cacheKey (r :: rest)) cache (r :: rest) mint
      cases hl : lookupKey (cacheKey (r :: rest)) cache with
      | none => rfl
      | some d => exact if_neg (fun hgt => hex ⟨d, hl, by omega⟩)
    rw [hrun]
    show (match installationId inst r with
      | none => (TsReply.errNoInstall (orgOf r), cache, 0)
      | some _ =>
        if 200 ≤ mint.status ∧ mint.status ≤ 299 then
          (TsReply.ok mint.token,
            insertCache (cacheKey (r :: rest))
              ⟨mint.token, mint.expiresAt⟩ cache, 1)
        else (TsReply.errApi mint.status mint.body, cache, 1)) =
        (.errApi mint.status mint.body, cache, 1)
    rw [hinst]
    exact if_neg hbad

/-- Witness for the amended C3: a Go mint failing with 500 and a TypeScript
mint failing with 401 each propagate status and body and leave the (empty)
cache empty. -/
theorem C3_witness :
    goGetToken [] 0 ["org/r"] ⟨500, "boom", "", 0⟩ =
      (.err 500 "boom", [], 1) ∧
    tsGetToken [("org", "i1")] [] 0 ["org/r"] ⟨401, "unauthorized", "", 0⟩ =
      (.errApi 401 "unauthorized", [], 1) := by
  have h := C3_failure_no_cache [] 0 ["org/r"] ⟨500, "boom", "", 0⟩
    [("org", "i1")] "org/r" [] "i1"
  have h2 := C3_failure_no_cache [] 0 ["org/r"] ⟨401, "unauthorized", "", 0⟩
    [("org", "i1")] "org/r" [] "i1"
  exact ⟨h.1 (by rintro ⟨c, hc, _⟩; simp [lookupKey] at hc) (by decide),
    h2.2 (by rintro ⟨c, hc, _⟩; simp [lookupKey] at hc) rfl (by decide)⟩

/-- **C10.** In the TypeScript `getToken`, the GitHub App installation used
for a mint is selected solely from the organization prefix of the first
repository in the scope list (the tail — including repositories of other
organizations — plays no part in the selection), and on a cache miss with no
installation configured for that organization, `getToken` throws without any
upstream call and without touching the cache. -/
theorem C10_installation_from_first_repo (inst : List (String × String))
    (cache : Cache) (now : Int) (r : String) (rest rest2 : List String)
    (mint : MintResult)
    (hmiss : lookupKey (cacheKey (r :: rest)) cache = none) :
    tsSelectedInstallation inst (r :: rest) = installationId inst r ∧
    tsSelectedInstallation inst (r :: rest) =
      tsSelectedInstallation inst (r :: rest2) ∧
    (installationId inst r = none →
      tsGetToken inst cache now (r :: rest) mint =
        (.errNoInstall (orgOf r), cache, 0)) := by
  refine ⟨rfl, rfl, fun hnone => ?_⟩
  have hrun : tsGetToken inst cache now (r :: rest) mint =
      tsMintStep inst (cacheKey (r :: rest)) cache (r :: rest) mint := by
    show (match lookupKey (cacheKey (r :: rest)) cache with
      | some d =>
          if d.expiresAt - now > 5 * 60 * 1000 then
            (TsReply.ok d.token, cache, 0)
          else tsMintStep inst (cacheKey (r :: rest)) cache (r :: rest) mint
      | none =>
          tsMintStep inst (cacheKey (r :: rest)) cache (r :: rest) mint) =
        tsMintStep inst (cacheKey (r :: rest)) cache (r :: rest) mint
    rw [hmiss]
  rw [hrun]
  show (match installationId inst r with
    | none => (TsReply.errNoInstall (orgOf r), cache, 0)
    | some _ =>
      if 200 ≤ mint.status ∧ mint.status ≤ 299 then
        (TsReply.ok mint.token,
          insertCache (cacheKey (r :: rest))
            ⟨mint.token, mint.expiresAt⟩ cache, 1)
      else (TsReply.errApi mint.status mint.body, cache, 1)) =
      (.errNoInstall (orgOf r), cache, 0)
  rw [hnone]

/-- Witness for C10: with only `org` configured, a two-organization scope
selects `org`'s installation regardless of the tail, and with an empty
installation map the call for scope `["org/r"]` throws with zero upstream
calls and an unchanged (empty) cache. -/
theorem C10_witness :
    tsSelectedInstallation [("org", "i1")] ["org/r", "other/s"] =
      installationId [("org", "i1")] "org/r" ∧
    tsSelectedInstallation [("org", "i1")] ["org/r", "other/s"] =
      tsSelectedInstallation [("org", "i1")] ["org/r", "third/t"] ∧
    tsGetToken [] [] 0 ["org/r"] ⟨201, "", "T", 3600⟩ =
      (.errNoInstall "org", [], 0) := by
  have h := C10_installation_from_first_repo [("org", "i1")] [] 0 "org/r"
    ["other/s"] ["third/t"] ⟨201, "", "T", 3600⟩ rfl
  have h2 := C10_installation_from_first_repo [] [] 0 "org/r" [] []
    ⟨201, "", "T", 3600⟩ rfl
  exact ⟨h.1, h.2.1, h2.2.2 rfl⟩

/-- **C6 (counterexample).** The claim says two `getToken` calls in rapid
succession from a fresh cache cause exactly one upstream mint, concurrent
callers being excluded by a mutual-exclusion lock.  The TypeScript
implementation has no lock, and its cache check and cache write are
separated by the `await` on the upstream fetch: in the interleaving where
both calls run their cache check before either write, both calls complete
with the same token but two upstream mints are issued. -/
theorem C6_counterexample :
    (runTs [("org", "i1")] 0 ["org/r"] ⟨201, "", "T", 1000000⟩
      [true, false, true, false] ⟨[], 0, .pending, .pending⟩).mints = 2 ∧
    (runTs [("org", "i1")] 0 ["org/r"] ⟨201, "", "T", 1000000⟩
      [true, false, true, false] ⟨[], 0, .pending, .pending⟩).t1 =
      .done "T" ∧
    (runTs [("org", "i1")] 0 ["org/r"] ⟨201, "", "T", 1000000⟩
      [true, false, true, false] ⟨[], 0, .pending, .pending⟩).t2 =
      .done "T" :=
  ⟨rfl, rfl, rfl⟩

/-- **C6 (amended).** Two *sequential* (non-overlapping) `getToken` calls
with a fresh cache yield exactly one upstream mint and two equal returned
token values, in both implementations: in the TypeScript task system the
schedule that runs call one to completion before call two starts issues one
mint and finishes both calls with the minted token, and in Go the two
serialized `GetToken` calls (the `tp.mu` mutex serializes every call) mint
once and return the same token.  Only Go guards the check-then-mint sequence
with a lock; the TypeScript implementation relies on call sequencing. -/
theorem C6_single_flight (inst : List (String × String)) (now now2 : Int)
    (r : String) (rest : List String) (resp resp2 : MintResult) (id : String)
    (hinst : installationId inst r = some id)
    (hok : 200 ≤ resp.status ∧ resp.status ≤ 299)
    (hfresh : now < resp.expiresAt - 5 * 60 * 1000)
    (hst : resp2.status = 201)
    (hfresh2 : now2 < resp2.expiresAt - 5 * 60) :
    (runTs inst now (r :: rest) resp [true, true, false, false]
        ⟨[], 0, .pending, .pending⟩).mints = 1 ∧
    (runTs inst now (r :: rest) resp [true, true, false, false]
        ⟨[], 0, .pending, .pending⟩).t1 = .done resp.token ∧
    (runTs inst now (r :: rest) resp [true, true, false, false]
        ⟨[], 0, .pending, .pending⟩).t2 = .done resp.token ∧
    (goGetToken [] now2 (r :: rest) resp2).1 = .ok resp2.token ∧
    (goGetToken [] now2 (r :: rest) resp2).2.2 = 1 ∧
    (goGetToken (goGetToken [] now2 (r :: rest) resp2).2.1 now2 (r :: rest)
        resp2).1 = .ok resp2.token ∧
    (goGetToken (goGetToken [] now2 (r :: rest) resp2).2.1 now2 (r :: rest)
        resp2).2.2 = 0 := by
  have e1 : sysStep inst now (r :: rest) resp ⟨[], 0, .pending, .pending⟩
      true = ⟨[], 1, .awaitingMint, .pending⟩ := by
    show ({ cache := (tsTaskStep inst now (r :: rest) resp [] 0 .pending).1,
            mints := (tsTaskStep inst now (r :: rest) resp [] 0 .pending).2.1,
            t1 := (tsTaskStep inst now (r :: rest) resp [] 0 .pending).2.2,
            t2 := Phase.pending } : TsSys) = _
    have ht : tsTaskStep inst now (r :: rest) resp [] 0 .pending =
        ([], 1, .awaitingMint) := by
      show tsIssueMint inst (r :: rest) [] 0 = _
      show (match installationId inst r with
        | none => (([] : Cache), 0, Phase.failed)
        | some _ => (([] : Cache), 0 + 1, Phase.awaitingMint)) = _
      rw [hinst]
    rw [ht]
  have e2 : sysStep inst now (r :: rest) resp ⟨[], 1, .awaitingMint, .pending⟩
      true =
      ⟨insertCache (cacheKey (r :: rest)) ⟨resp.token, resp.expiresAt⟩ [],
        1, .done resp.token, .pending⟩ := by
    show ({ cache :=
              (tsTaskStep inst now (r :: rest) resp [] 1 .awaitingMint).1,
            mints :=
              (tsTaskStep inst now (r :: rest) resp [] 1 .awaitingMint).2.1,
            t1 := (tsTaskStep inst now (r :: rest) resp [] 1 .awaitingMint).2.2,
            t2 := Phase.pending } : TsSys) = _
    have ht : tsTaskStep inst now (r :: rest) resp [] 1 .awaitingMint =
        (insertCache (cacheKey (r :: rest)) ⟨resp.token, resp.expiresAt⟩ [],
          1, .done resp.token) := by
      show (if 200 ≤ resp.status ∧ resp.status ≤ 299 then
        (insertCache (cacheKey (r :: rest)) ⟨resp.token, resp.expiresAt⟩ [],
          1, Phase.done resp.token)
        else (([] : Cache), 1, Phase.failed)) = _
      rw [if_pos hok]
    rw [ht]
  have e3 : sysStep inst now (r :: rest) resp
      ⟨insertCache (cacheKey (r :: rest)) ⟨resp.token, resp.expiresAt⟩ [],
        1, .done resp.token, .pending⟩ false =
      ⟨insertCache (cacheKey (r :: rest)) ⟨resp.token, resp.expiresAt⟩ [],
        1, .done resp.token, .done resp.token⟩ := by
    have ht : tsTaskStep inst now (r :: rest) resp
        (insertCache (cacheKey (r :: rest)) ⟨resp.token, resp.expiresAt⟩ [])
        1 .pending =
        (insertCache (cacheKey (r :: rest)) ⟨resp.token, resp.expiresAt⟩ [],
          1, .done resp.token) := by
      show (match lookupKey (cacheKey (r :: rest))
          (insertCache (cacheKey (r :: rest))
            ⟨resp.token, resp.expiresAt⟩ []) with
        | some ct =>
            if ct.expiresAt - now > 5 * 60 * 1000 then
              (insertCache (cacheKey (r :: rest))
                ⟨resp.token, resp.expiresAt⟩ [], 1, Phase.done ct.token)
            else
              tsIssueMint inst (r :: rest)
                (insertCache (cacheKey (r :: rest))
                  ⟨resp.token, resp.expiresAt⟩ []) 1
        | none =>
            tsIssueMint inst (r :: rest)
              (insertCache (cacheKey (r :: rest))
                ⟨resp.token, resp.expiresAt⟩ []) 1) = _
      rw [lookupKey_insertCache_self]
      exact if_pos (by omega : resp.expiresAt - now > 5 * 60 * 1000)
    show ({ cache := (tsTaskStep inst now (r :: rest) resp
              (insertCache (cacheKey (r :: rest))
                ⟨resp.token, resp.expiresAt⟩ []) 1 .pending).1,
            mints := (tsTaskStep inst now (r :: rest) resp
              (insertCache (cacheKey (r :: rest))
                ⟨resp.token, resp.expiresAt⟩ []) 1 .pending).2.1,
            t1 := Phase.done resp.token,
            t2 := (tsTaskStep inst now (r :: rest) resp
              (insertCache (cacheKey (r :: rest))
                ⟨resp.token, resp.expiresAt⟩ []) 1 .pending).2.2 } : TsSys) = _
    rw [ht]
  have erun : runTs inst now (r :: rest) resp [true, true, false, false]
      ⟨[], 0, .pending, .pending⟩ =
      ⟨insertCache (cacheKey (r :: rest)) ⟨resp.token, resp.expiresAt⟩ [],
        1, .done resp.token, .done resp.token⟩ := by
    show sysStep inst now (r :: rest) resp
        (sysStep inst now (r :: rest) resp
          (sysStep inst now (r :: rest) resp
            (sysStep inst now (r :: rest) resp
              ⟨[], 0, .pending, .pending⟩ true) true) false) false = _
    rw [e1, e2, e3]
    rfl
  have g1 : goGetToken [] now2 (r :: rest) resp2 =
      (.ok resp2.token,
        insertCache (cacheKey (r :: rest))
          ⟨resp2.token, resp2.expiresAt⟩ [], 1) := by
    show goMintStep (cacheKey (r :: rest)) [] resp2 = _
    unfold goMintStep
    rw [if_pos hst]
  have g2 : goGetToken
      (insertCache (cacheKey (r :: rest)) ⟨resp2.token, resp2.expiresAt⟩ [])
      now2 (r :: rest) resp2 =
      (.ok resp2.token,
        insertCache (cacheKey (r :: rest))
          ⟨resp2.token, resp2.expiresAt⟩ [], 0) := by
    show (match lookupKey (cacheKey (r :: rest))
        (insertCache (cacheKey (r :: rest))
          ⟨resp2.token, resp2.expiresAt⟩ []) with
      | some d =>
          if d.expiresAt - now2 > 5 * 60 then
            (GoReply.ok d.token,
              insertCache (cacheKey (r :: rest))
                ⟨resp2.token, resp2.expiresAt⟩ [], 0)
          else goMintStep (cacheKey (r :: rest))
            (insertCache (cacheKey (r :: rest))
              ⟨resp2.token, resp2.expiresAt⟩ []) resp2
      | none => goMintStep (cacheKey (r :: rest))
          (insertCache (cacheKey (r :: rest))
            ⟨resp2.token, resp2.expiresAt⟩ []) resp2) = _
    rw [lookupKey_insertCache_self]
    exact if_pos (by omega : resp2.expiresAt - now2 > 5 * 60)
  rw [erun, g1]
  exact ⟨rfl, rfl, rfl, rfl, rfl, by rw [g2], by rw [g2]⟩

/-- Witness for the amended C6 at concrete inputs: one mint and equal tokens
under the sequential schedule, and one mint then a served cache hit for the
serialized Go pair. -/
theorem C6_witness :
    (runTs [("org", "i1")] 0 ["org/r"] ⟨201, "", "T", 1000000⟩
        [true, true, false, false] ⟨[], 0, .pending, .pending⟩).mints = 1 ∧
    (runTs [("org", "i1")] 0 ["org/r"] ⟨201, "", "T", 1000000⟩
        [true, true, false, false] ⟨[], 0, .pending, .pending⟩).t1 =
      .done "T" ∧
    (runTs [("org", "i1")] 0 ["org/r"] ⟨201, "", "T", 1000000⟩
        [true, true, false, false] ⟨[], 0, .pending, .pending⟩).t2 =
      .done "T" ∧
    (goGetToken [] 0 ["org/r"] ⟨201, "", "T2", 3600⟩).1 = .ok "T2" ∧
    (goGetToken (goGetToken [] 0 ["org/r"] ⟨201, "", "T2", 3600⟩).2.1 0
        ["org/r"] ⟨201, "", "T2", 3600⟩).2.2 = 0 := by
  have h := C6_single_flight [("org", "i1")] 0 0 "org/r" []
    ⟨201, "", "T", 1000000⟩ ⟨201, "", "T2", 3600⟩ "i1" rfl (by decide)
    (by decide) rfl (by decide)
  exact ⟨h.1, h.2.1, h.2.2.1, h.2.2.2.1, h.2.2.2.2.2.2⟩

theorem lookupKey_createSocket_of_ne {reg : Registry} {n m : String}
    (hn : ¬ m = n) (rs : List String) :
    lookupKey n (createSocket reg m rs) = lookupKey n reg := by
  unfold createSocket
  cases hm : lookupKey m reg with
  | some _ => rfl
  | none => simp [lookupKey, hn]

theorem lookupKey_foldl_tsRecoverStep (ds : List Drone) :
    ∀ (reg : Registry) (n : String),
      lookupKey n (ds.foldl tsRecoverStep reg) =
        match lookupKey n reg with
        | some S => some S
        | none => tsFirstScope n ds := by
  induction ds with
  | nil =>
    intro reg n
    cases h : lookupKey n reg <;> simp [tsFirstScope, h, List.foldl]
  | cons d ds ih =>
    intro reg n
    show lookupKey n (ds.foldl tsRecoverStep (tsRecoverStep reg d)) = _
    rw [ih]
    by_cases hg : d.state = "running" ∧ ¬ d.repo = ""
    · have hstep : tsRecoverStep reg d =
          createSocket reg d.name (tsParseRepos d.repo) := by
        simp [tsRecoverStep, hg]
      rw [hstep]
      cases h : lookupKey n reg with
      | some S =>
        rw [lookupKey_createSocket_preserved d.name (tsParseRepos d.repo) h]
      | none =>
        by_cases hn : d.name = n
        · subst hn
          have hcr : createSocket reg d.name (tsParseRepos d.repo) =
              (d.name, tsParseRepos d.repo) :: reg := by
            simp [createSocket, h]
          rw [hcr]
          simp [lookupKey, tsFirstScope, hg]
        · rw [lookupKey_createSocket_of_ne hn, h]
          have hcond : ¬ (d.state = "running" ∧ ¬ d.repo = "" ∧ d.name = n) :=
            fun hc => hn hc.2.2
          simp [tsFirstScope, hcond]
    · have hstep : tsRecoverStep reg d = reg := by simp [tsRecoverStep, hg]
      rw [hstep]
      have hcond : ¬ (d.state = "running" ∧ ¬ d.repo = "" ∧ d.name = n) :=
        fun hc => hg ⟨hc.1, hc.2.1⟩
      cases h : lookupKey n reg <;> simp [tsFirstScope, hcond, h]

theorem lookupKey_foldl_goRecoverStep (ds : List Drone) :
    ∀ (reg : Registry) (n : String),
      lookupKey n (ds.foldl goRecoverStep reg) =
        match lookupKey n reg with
        | some S => some S
        | none => goFirstScope n ds := by
  induction ds with
  | nil =>
    intro reg n
    cases h : lookupKey n reg <;> simp [goFirstScope, h, List.foldl]
  | cons d ds ih =>
    intro reg n
    show lookupKey n (ds.foldl goRecoverStep (goRecoverStep reg d)) = _
    rw [ih]
    by_cases hg : d.state = "running"
    · have hstep : goRecoverStep reg d =
          createSocket reg d.name (goParseRepos d.repo) := by
        simp [goRecoverStep, hg]
      rw [hstep]
      cases h : lookupKey n reg with
      | some S =>
        rw [lookupKey_createSocket_preserved d.name (goParseRepos d.repo) h]
      | none =>
        by_cases hn : d.name = n
        · subst hn
          have hcr : createSocket reg d.name (goParseRepos d.repo) =
              (d.name, goParseRepos d.repo) :: reg := by
            simp [createSocket, h]
          rw [hcr]
          simp [lookupKey, goFirstScope, hg]
        · rw [lookupKey_createSocket_of_ne hn, h]
          have hcond : ¬ (d.state = "running" ∧ d.name = n) :=
            fun hc => hn hc.2
          simp [goFirstScope, hcond]
    · have hstep : goRecoverStep reg d = reg := by simp [goRecoverStep, hg]
      rw [hstep]
      have hcond : ¬ (d.state = "running" ∧ d.name = n) :=
        fun hc => hg hc.1
      cases h : lookupKey n reg <;> simp [goFirstScope, hcond, h]

/-- **C9 (counterexample).** The claim says recovery creates an endpoint
exactly for each running container, with scope the comma-split,
whitespace-trimmed repository label.  A running container whose repository
label is empty refutes both halves: the TypeScript recovery creates no
endpoint for it at all (its guard also requires a nonempty label), the Go
recovery creates one with the empty scope, and neither scope equals the
claimed split-and-trim result `[""]`. -/
theorem C9_counterexample :
    tsRecover [⟨"alpha", "", "running"⟩] = [] ∧
    goRecover [⟨"alpha", "", "running"⟩] = [("alpha", [])] ∧
    specRecoverScope "" = [""] ∧
    ¬ goParseRepos "" = specRecoverScope "" ∧
    ¬ tsParseRepos "" = specRecoverScope "" :=
  ⟨rfl, rfl, rfl, by decide, by decide⟩

/-- **C9 (amended).** The recovery pass registers an endpoint for a tenant
name exactly when the orchestrator reports a running container with that
name — where the TypeScript service additionally requires a nonempty
repository label — and the endpoint's scope is the label of the first such
container parsed by the respective `parseRepos`: comma-split and trimmed,
with empty entries dropped by TypeScript and an empty label yielding the
empty scope in both. -/
theorem C9_recovery (ds : List Drone) (n : String) :
    lookupKey n (tsRecover ds) = tsFirstScope n ds ∧
    lookupKey n (goRecover ds) = goFirstScope n ds ∧
    ((tsFirstScope n ds).isSome ↔
      ∃ d ∈ ds, d.state = "running" ∧ ¬ d.repo = "" ∧ d.name = n) ∧
    ((goFirstScope n ds).isSome ↔
      ∃ d ∈ ds, d.state = "running" ∧ d.name = n) := by
  refine ⟨?_, ?_, ?_, ?_⟩
  · show lookupKey n (ds.foldl tsRecoverStep []) = _
    rw [lookupKey_foldl_tsRecoverStep]
    rfl
  · show lookupKey n (ds.foldl goRecoverStep []) = _
    rw [lookupKey_foldl_goRecoverStep]
    rfl
  · induction ds with
    | nil => simp [tsFirstScope]
    | cons d ds ih =>
      by_cases hc : d.state = "running" ∧ ¬ d.repo = "" ∧ d.name = n
      · rw [show tsFirstScope n (d :: ds) = some (tsParseRepos d.repo) from
          by simp [tsFirstScope, hc]]
        exact iff_of_true (by simp) ⟨d, List.mem_cons_self d ds, hc⟩
      · rw [show tsFirstScope n (d :: ds) = tsFirstScope n ds from by
          simp [tsFirstScope, hc]]
        rw [ih]
        constructor
        · rintro ⟨e, he, hp⟩
          exact ⟨e, List.mem_cons_of_mem d he, hp⟩
        · rintro ⟨e, he, hp⟩
          rcases List.mem_cons.mp he with rfl | he2
          · exact absurd hp hc
          · exact ⟨e, he2, hp⟩
  · induction ds with
    | nil => simp [goFirstScope]
    | cons d ds ih =>
      by_cases hc : d.state = "running" ∧ d.name = n
      · rw [show goFirstScope n (d :: ds) = some (goParseRepos d.repo) from
          by simp [goFirstScope, hc]]
        exact iff_of_true (by simp) ⟨d, List.mem_cons_self d ds, hc⟩
      · rw [show goFirstScope n (d :: ds) = goFirstScope n ds from by
          simp [goFirstScope, hc]]
        rw [ih]
        constructor
        · rintro ⟨e, he, hp⟩
          exact ⟨e, List.mem_cons_of_mem d he, hp⟩
        · rintro ⟨e, he, hp⟩
          rcases List.mem_cons.mp he with rfl | he2
          · exact absurd hp hc
          · exact ⟨e, he2, hp⟩

/-- Witness for the amended C9 on a concrete orchestrator report: the
running `alpha` (label `"org/a, org/b"`) gets an endpoint with the trimmed
scope, the running `beta` with an empty label gets one only from the Go
service (with empty scope), and the exited `gamma` gets none. -/
theorem C9_witness :
    lookupKey "alpha"
        (tsRecover [⟨"alpha", "org/a, org/b", "running"⟩,
          ⟨"beta", "", "running"⟩, ⟨"gamma", "org/c", "exited"⟩]) =
      some ["org/a", "org/b"] ∧
    lookupKey "beta"
        (tsRecover [⟨"alpha", "org/a, org/b", "running"⟩,
          ⟨"beta", "", "running"⟩, ⟨"gamma", "org/c", "exited"⟩]) = none ∧
    lookupKey "beta"
        (goRecover [⟨"alpha", "org/a, org/b", "running"⟩,
          ⟨"beta", "", "running"⟩, ⟨"gamma", "org/c", "exited"⟩]) =
      some [] ∧
    lookupKey "gamma"
        (goRecover [⟨"alpha", "org/a, org/b", "running"⟩,
          ⟨"beta", "", "running"⟩, ⟨"gamma", "org/c", "exited"⟩]) = none := by
  have ha := (C9_recovery [⟨"alpha", "org/a, org/b", "running"⟩,
    ⟨"beta", "", "running"⟩, ⟨"gamma", "org/c", "exited"⟩] "alpha").1
  have hb := (C9_recovery [⟨"alpha", "org/a, org/b", "running"⟩,
    ⟨"beta", "", "running"⟩, ⟨"gamma", "org/c", "exited"⟩] "beta").1
  have hb2 := (C9_recovery [⟨"alpha", "org/a, org/b", "running"⟩,
    ⟨"beta", "", "running"⟩, ⟨"gamma", "org/c", "exited"⟩] "beta").2.1
  have hg := (C9_recovery [⟨"alpha", "org/a, org/b", "running"⟩,
    ⟨"beta", "", "running"⟩, ⟨"gamma", "org/c", "exited"⟩] "gamma").2.1
  exact ⟨ha.trans (by decide), hb.trans (by decide), hb2.trans (by decide),
    hg.trans (by decide)⟩

end Hatchery
